import Mathlib

/-!
Verification development for the bp_scheduler core: a shallow embedding of the
arbitration ledger (`player/access.rs`), the hardware worker (`player/worker.rs`),
the playback player (`player/mod.rs`), the scheduler façade (`lib.rs`) and the
dynamic-tracking speed limiter (`dynamic_tracking/util.rs`), together with
theorems settling the specification claims about them.

Machine integers are modelled as `Nat`/`Int` (Rust `usize::saturating_sub`
coincides with truncated `Nat` subtraction; the `i64 -> u16` cast is taken
modulo 2^16); Rust `f64` values are modelled as exact rationals `ℚ`.
-/

/-- Identity of one actuator: device index plus index within the device
(struct `ActuatorIndex` in `player/access.rs`). -/
structure ActuatorIndex where
  device_index : Nat
  actuator_index : Nat
deriving DecidableEq, Repr

/-- Modelled from the spec: the `speed` module (`speed.rs`) is declared in
`lib.rs` but not present under `src/`.  Per §3 of the spec, an intensity is an
integer percentage 0–100, saturating on construction, with float conversion,
multiplicative composition and derivation from a pattern sample point. -/
structure Speed where
  value : Nat
deriving DecidableEq, Repr

/-- Modelled from the spec: saturating constructor (`Speed::new`); the repo's
own tests pin `Speed::new(-1000).as_float() = 0.0` and
`Speed::new(1000).as_float() = 1.0`. -/
def Speed.new (v : Int) : Speed :=
  ⟨(max 0 (min 100 v)).toNat⟩

/-- `Speed::min()`: the zero intensity written on hardware stop. -/
def Speed.minSpeed : Speed := ⟨0⟩

/-- Modelled from the spec: float conversion (`Speed::as_float`), value / 100. -/
def Speed.as_float (s : Speed) : ℚ := (s.value : ℚ) / 100

/-- Modelled from the spec: conversion from a float back to a saturating
percentage (`Speed::from_float`). -/
def Speed.from_float (q : ℚ) : Speed := Speed.new (round (q * 100))

/-- Modelled from the spec: multiplicative composition (`Speed::multiply`) —
apply one intensity as a percentage of another. -/
def Speed.multiply (a b : Speed) : Speed :=
  Speed.new ((a.value * b.value : Int) / 100)

/-- One sample point of a funscript pattern (`FSPoint`): position and
timestamp in ms (the source field `at` is a Lean keyword, hence `at_ms`). -/
structure FSPoint where
  pos : Int
  at_ms : Int
deriving DecidableEq, Repr

/-- Modelled from the spec: derivation of an intensity from a pattern sample
point on the 0–100 scale (`Speed::from_fs`). -/
def Speed.from_fs (p : FSPoint) : Speed := Speed.new p.pos

/-- Scalar limits configuration (`ScalarRange` in `settings/scalar.rs`). -/
structure ScalarRange where
  min_speed : Int
  max_speed : Int
  factor : ℚ
deriving DecidableEq

/-- Speed-scaling curve for linear strokes (`LinearSpeedScaling` in
`config/linear.rs`). -/
inductive LinearSpeedScaling where
  | Linear : LinearSpeedScaling
  | Parabolic : Int → LinearSpeedScaling
deriving DecidableEq

/-- Linear limits configuration (`LinearRange` in `config/linear.rs`). -/
structure LinearRange where
  min_ms : Int
  max_ms : Int
  min_pos : ℚ
  max_pos : ℚ
  invert : Bool
  scaling : LinearSpeedScaling
deriving DecidableEq

/-- `LinearRange::max()` in `config/linear.rs`. -/
def LinearRange.maxRange : LinearRange :=
  { min_ms := 50, max_ms := 10000, min_pos := 0, max_pos := 1,
    invert := false, scaling := .Linear }

/-- Per-actuator limits (`ActuatorLimits` in `config/actuators/mod.rs`). -/
inductive ActuatorLimits where
  | None : ActuatorLimits
  | Scalar : ScalarRange → ActuatorLimits
  | Linear : LinearRange → ActuatorLimits
deriving DecidableEq

/-- `ActuatorSettings::linear_or_max` in `config/linear.rs`. -/
def ActuatorLimits.linear_or_max : ActuatorLimits → LinearRange
  | .Linear settings => settings
  | _ => LinearRange.maxRange

/-- `LinearRange::apply_pos` in `player/mod.rs`. -/
def LinearRange.apply_pos (r : LinearRange) (pos : ℚ) : ℚ :=
  if r.invert then 1 - pos else pos

/-- An actuator as the player sees it: its index identity plus the resolved
limits configuration (`Actuator` with `get_config().limits`). -/
structure ActuatorM where
  idx : ActuatorIndex
  limits : ActuatorLimits
deriving DecidableEq

/-! ## Arbitration ledger (`player/access.rs`) -/

/-- `DeviceEntry`: bookkeeping for one actuator — number of tasks currently
accessing it, plus the (handle, speed) claims of the non-pattern tasks. -/
structure DeviceEntry where
  task_count : Nat
  linear_tasks : List (Int × Speed)
deriving DecidableEq, Repr

/-- `DeviceAccess::device_actions`: the ledger map, modelled as a function
from actuator index to optional entry (the `HashMap` semantics). -/
def DeviceAccess := ActuatorIndex → Option DeviceEntry

/-- The empty ledger (`DeviceAccess::default()`). -/
def DeviceAccess.empty : DeviceAccess := fun _ => none

/-- Map insertion (`HashMap::insert`, replacing any existing binding). -/
def DeviceAccess.insert (m : DeviceAccess) (k : ActuatorIndex) (v : DeviceEntry) :
    DeviceAccess :=
  fun j => if j = k then some v else m j

/-- `DeviceAccess::calculate_speed`: resolve the intensity to write as the
maximum value among the current constant claims, if any. -/
def calculate_speed (m : DeviceAccess) (a : ActuatorIndex) : Option Speed :=
  match m a with
  | some entry =>
    match ((entry.linear_tasks.map (fun x => x.2.value) : List Nat)).max? with
    | some percentage => some (Speed.new (percentage : Int))
    | none => none
  | none => none

/-- `DeviceAccess::start_scalar`: increment the task count, record a constant
claim unless the task is a pattern, and write the supplied speed
unconditionally.  Returns the new ledger and the speed written. -/
def start_scalar (m : DeviceAccess) (a : ActuatorIndex) (speed : Speed)
    (is_pattern : Bool) (handle : Int) : DeviceAccess × Speed :=
  let m' :=
    match m a with
    | some entry =>
      m.insert a
        { task_count := entry.task_count + 1,
          linear_tasks :=
            if is_pattern then entry.linear_tasks
            else entry.linear_tasks ++ [(handle, speed)] }
    | none =>
      m.insert a
        { task_count := 1,
          linear_tasks := if is_pattern then [] else [(handle, speed)] }
  (m', speed)

/-- `DeviceAccess::stop_scalar`: drop this handle's constant claim, decrement
the task count with `saturating_sub`, re-insert the entry, then either write
the minimum speed (count reached zero) or the recomputed resolved speed.
Returns the new ledger and the write performed, if any. -/
def stop_scalar (m : DeviceAccess) (a : ActuatorIndex) (is_pattern : Bool)
    (handle : Int) : DeviceAccess × Option Speed :=
  match m a with
  | none => (m, none)
  | some entry =>
    let tasks :=
      if is_pattern then entry.linear_tasks
      else entry.linear_tasks.filter (fun t => t.1 ≠ handle)
    let count := entry.task_count - 1
    let m' := m.insert a { task_count := count, linear_tasks := tasks }
    if count = 0 then (m', some Speed.minSpeed)
    else
      match calculate_speed m' a with
      | some last_speed => (m', some last_speed)
      | none => (m', none)

/-- `DeviceAccess::update_scalar`: for a non-pattern task, replace this
handle's constant claim with the new speed; then write the resolved speed,
falling back to the supplied speed when no constant claims exist.  Returns the
new ledger and the speed written. -/
def update_scalar (m : DeviceAccess) (a : ActuatorIndex) (new_speed : Speed)
    (is_pattern : Bool) (handle : Int) : DeviceAccess × Speed :=
  let m' :=
    if is_pattern then m
    else
      match m a with
      | some entry =>
        m.insert a
          { entry with
            linear_tasks := entry.linear_tasks.map (fun t =>
              if t.1 = handle then (handle, new_speed) else t) }
      | none => m
  (m', (calculate_speed m' a).getD new_speed)

/-- `DeviceAccess::clear_all`: drop the whole ledger. -/
def clear_all (_ : DeviceAccess) : DeviceAccess := fun _ => none

/-! ## Hardware worker (`player/worker.rs`) -/

/-- Result of one worker-acknowledged operation (`WorkerResult`); an error is
tagged with the failing actuator (`WorkerError`), the transport error itself
being opaque. -/
inductive WResult where
  | ok : WResult
  | err : ActuatorIndex → WResult
deriving DecidableEq, Repr

/-- The worker command messages (`WorkerTask`).  The result-sender channels
are implicit in the model: `End` always sends exactly one result back, `Move`
acknowledges via its spawned sub-task when `finish` is set. -/
inductive WorkerTask where
  | Start : ActuatorIndex → Speed → Bool → Int → WorkerTask
  | Update : ActuatorIndex → Speed → Bool → Int → WorkerTask
  | End : ActuatorIndex → Bool → Int → WorkerTask
  | Move : ActuatorIndex → ℚ → Nat → Bool → WorkerTask
  | StopAll : WorkerTask
deriving DecidableEq

/-- A hardware scalar write observed at the device: which actuator, what
intensity (`DeviceAccess::set_scalar`). -/
def Write := ActuatorIndex × Speed

/-- One iteration of `ButtplugWorker::run_worker_thread`: apply a message to
the ledger; produce the scalar writes performed and the number of
acknowledgements sent back over the result channel (`End` always sends one,
whether the stop write succeeded or failed). -/
def worker_step (m : DeviceAccess) : WorkerTask → DeviceAccess × List Write × Nat
  | .Start a speed is_pattern handle =>
    ((start_scalar m a speed is_pattern handle).1,
      [(a, (start_scalar m a speed is_pattern handle).2)], 0)
  | .Update a speed is_pattern handle =>
    ((update_scalar m a speed is_pattern handle).1,
      [(a, (update_scalar m a speed is_pattern handle).2)], 0)
  | .End a is_pattern handle =>
    ((stop_scalar m a is_pattern handle).1,
      ((stop_scalar m a is_pattern handle).2.map (fun s => (a, s))).toList, 1)
  | .Move _ _ _ _ => (m, [], 0)
  | .StopAll => (clear_all m, [], 0)

/-- The worker's FIFO receive loop over a finite message queue: the ledger
mutations are applied strictly in queue order (single consumer). -/
def worker_run (m : DeviceAccess) : List WorkerTask → DeviceAccess × List Write × Nat
  | [] => (m, [], 0)
  | t :: ts =>
    ((worker_run (worker_step m t).1 ts).1,
      (worker_step m t).2.1 ++ (worker_run (worker_step m t).1 ts).2.1,
      (worker_step m t).2.2 + (worker_run (worker_step m t).1 ts).2.2)

/-! ## Playback player (`player/mod.rs`) -/

/-- `apply_scalar_settings` in `player/mod.rs`: zero passes through unchanged;
otherwise scalar limits apply the factor and then clamp to
`[min_speed, max_speed]`; non-scalar limits pass the speed through. -/
def apply_scalar_settings (speed : Speed) (settings : ActuatorLimits) : Speed :=
  if speed.value = 0 then speed
  else
    match settings with
    | .Scalar s =>
      let speed' := Speed.from_float (speed.as_float * s.factor)
      if speed'.value < (s.min_speed % 65536).toNat then Speed.new s.min_speed
      else if speed'.value > (s.max_speed % 65536).toNat then Speed.new s.max_speed
      else speed'
    | _ => speed

/-- The limit transformation exactly as the spec words it: the input intensity
multiplied by the configured factor and then clamped into
`[min_speed, max_speed]` (stated for comparison with `apply_scalar_settings`). -/
def spec_scalar_limit (speed : Speed) (s : ScalarRange) : Speed :=
  ⟨min (max (Speed.from_float (speed.as_float * s.factor)).value s.min_speed.toNat)
      s.max_speed.toNat⟩

/-- `PatternPlayer::do_scalar`: send a `Start` for every actuator, the speed
passed through the actuator's configured limits. -/
def do_scalar_msgs (actuators : List ActuatorM) (speed : Speed) (is_pattern : Bool)
    (handle : Int) : List WorkerTask :=
  actuators.map (fun a =>
    WorkerTask.Start a.idx (apply_scalar_settings speed a.limits) is_pattern handle)

/-- `PatternPlayer::do_update`: send an `Update` for every actuator, the speed
passed through the actuator's configured limits. -/
def do_update_msgs (actuators : List ActuatorM) (speed : Speed) (is_pattern : Bool)
    (handle : Int) : List WorkerTask :=
  actuators.map (fun a =>
    WorkerTask.Update a.idx (apply_scalar_settings speed a.limits) is_pattern handle)

/-- The messages `PatternPlayer::do_stop` sends: one `End` per actuator. -/
def do_stop_msgs (actuators : List ActuatorM) (is_pattern : Bool) (handle : Int) :
    List WorkerTask :=
  actuators.map (fun a => WorkerTask.End a.idx is_pattern handle)

/-- The receive loop of `PatternPlayer::do_stop`: `last_result` starts as `Ok`
and is overwritten by one received result per actuator; `queue` models the
worker's result channel (an empty queue stands for a receive that would block). -/
def recv_loop : Nat → WResult → List WResult → WResult
  | 0, last, _ => last
  | n + 1, _, r :: rest => recv_loop n r rest
  | n + 1, last, [] => recv_loop n last []

/-- The value `PatternPlayer::do_stop` returns, given the sequence of results
the worker put on the result channel (one per `End`). -/
def do_stop_result (actuators : List ActuatorM) (results : List WResult) : WResult :=
  recv_loop actuators.length WResult.ok results

/-- The full message trace of `PatternPlayer::play_scalar`: the initial
`Start` block, one `Update` block per live-update received, then the
finalization `End` block from `do_stop` (cancellation only decides how many
updates happen before the stop). -/
def play_scalar_msgs (actuators : List ActuatorM) (speed : Speed)
    (updates : List Speed) (handle : Int) : List WorkerTask :=
  do_scalar_msgs actuators speed false handle ++
    (updates.map (fun u => do_update_msgs actuators u false handle)).flatten ++
    do_stop_msgs actuators false handle

/-- `PatternPlayer::do_linear`: send a `Move` per actuator; the mutable `pos`
threads through the actuators, each applying its own configured inversion. -/
def do_linear_msgs (actuators : List ActuatorM) (pos0 : ℚ) (duration_ms : Nat) :
    List WorkerTask × ℚ :=
  actuators.foldl
    (fun (st : List WorkerTask × ℚ) a =>
      let pos := (a.limits.linear_or_max).apply_pos st.2
      (st.1 ++ [WorkerTask.Move a.idx pos duration_ms true], pos))
    ([], pos0)

/-- The guard shared by `play_scalar_pattern` and `play_linear`: an empty
action list, or one whose actions all sit at timestamp 0. -/
def empty_or_all_zero (actions : List FSPoint) : Bool :=
  actions.isEmpty || actions.all (fun x => x.at_ms == 0)

/-- The coalescing scan of `play_scalar_pattern`: starting from `j = 1`,
advance `j` while `j + i < len - 1` and the time delta to the current action
stays below the configured minimum resolution (`gas` bounds the `while`; it is
set to the list length, beyond which the first conjunct fails). -/
def coalesce_go (actions : List FSPoint) (resolution : Int) (i : Nat) :
    Nat → Nat → Nat
  | j, 0 => j
  | j, gas + 1 =>
    if j + i < actions.length - 1 ∧
        (actions.getD (i + j) ⟨0, 0⟩).at_ms - (actions.getD i ⟨0, 0⟩).at_ms
          < resolution then
      coalesce_go actions resolution i (j + 1) gas
    else j

/-- The value of `j` after the inner `while` of `play_scalar_pattern`. -/
def coalesce (actions : List FSPoint) (resolution : Int) (i : Nat) : Nat :=
  coalesce_go actions resolution i 1 actions.length

/-- The emission loop of `play_scalar_pattern` after the guard: each iteration
coalesces sub-resolution samples, polls the live-update channel (`updates`,
one optional reception per iteration), multiplies the sample by the current
overall intensity, and emits `Start` on the first iteration and `Update`
thereafter.  Wall-clock waiting is abstracted: `fuel` is the number of waits
that complete before cancellation is observed (`cancellable_wait` returning
`false` breaks the loop after the emission of that iteration). -/
def pattern_loop (actuators : List ActuatorM) (actions : List FSPoint)
    (resolution : Int) (handle : Int) :
    Nat → Nat → Bool → Speed → List Speed → List WorkerTask
  | fuel, i, started, current_speed, updates =>
    let len := actions.length
    let j := coalesce actions resolution i
    let current := actions.getD (i % len) ⟨0, 0⟩
    let (speed', updates') :=
      match updates with
      | [] => (current_speed, ([] : List Speed))
      | u :: rest => (u, rest)
    let sp := (Speed.from_fs current).multiply speed'
    let emit :=
      if started then do_update_msgs actuators sp true handle
      else do_scalar_msgs actuators sp true handle
    match fuel with
    | 0 => emit
    | fuel + 1 =>
      emit ++ pattern_loop actuators actions resolution handle fuel (i + j) true
          speed' updates'

/-- `PatternPlayer::play_scalar_pattern`: the guard returns `Ok` immediately
with no messages; otherwise the emission loop runs until cancellation and the
finalization (`do_stop`) sends one `End` per actuator, its return value
determined by the results received from the worker. -/
def play_scalar_pattern_model (actuators : List ActuatorM) (actions : List FSPoint)
    (resolution : Int) (speed : Speed) (handle : Int) (fuel : Nat)
    (updates : List Speed) (stop_results : List WResult) :
    List WorkerTask × WResult :=
  if empty_or_all_zero actions then ([], WResult.ok)
  else
    (pattern_loop actuators actions resolution handle fuel 0 false speed updates ++
        do_stop_msgs actuators true handle,
      do_stop_result actuators stop_results)

/-- The replay loop of `play_linear` after the guard: each outer iteration
walks the action list once, emitting a `Move` block per sample (wall-clock
waits abstracted, the wait duration standing in for
`point.at - started.elapsed()`); `fuel` counts the outer iterations before
cancellation is observed. -/
def linear_loop (actuators : List ActuatorM) (actions : List FSPoint) :
    Nat → List WorkerTask
  | 0 => []
  | fuel + 1 =>
    (actions.foldl
        (fun st p =>
          st ++ (do_linear_msgs actuators (Speed.from_fs p).as_float p.at_ms.toNat).1)
        []) ++
      linear_loop actuators actions fuel

/-- `PatternPlayer::play_linear`: the guard returns `last_result = Ok`
immediately with no messages; otherwise the replay loop runs until
cancellation and the call returns the last completed move's result. -/
def play_linear_model (actuators : List ActuatorM) (actions : List FSPoint)
    (fuel : Nat) (move_results : List WResult) : List WorkerTask × WResult :=
  if empty_or_all_zero actions then ([], WResult.ok)
  else
    (linear_loop actuators actions fuel,
      (move_results.getLast?).getD WResult.ok)

/-! ## Scheduler façade (`lib.rs`) -/

/-- Scheduler state (`ButtplugScheduler`): the handle registry mapping each
live handle to its ordered control registrations, and the last allocated
handle.  A registration (`ControlHandle`: cancellation token plus update
sender) is identified by an abstract token id. -/
structure SchedulerState where
  control_handles : Int → Option (List Nat)
  last_handle : Int

/-- `ButtplugScheduler::get_next_handle`: increment and return `last_handle`. -/
def get_next_handle (s : SchedulerState) : Int × SchedulerState :=
  (s.last_handle + 1, { s with last_handle := s.last_handle + 1 })

/-- `ButtplugScheduler::create_player`, restricted to its registry effect:
`reg` is the fresh registration (token/channel pair) the call constructs.
Returns the new scheduler state and the handle the player is bound to. -/
def create_player (s : SchedulerState) (reg : Nat) (existing_handle : Int) :
    SchedulerState × Int :=
  if existing_handle > 0 then
    match s.control_handles existing_handle with
    | some regs =>
      ({ s with
          control_handles := fun k =>
            if k = existing_handle then some (regs ++ [reg])
            else s.control_handles k },
        existing_handle)
    | none => (s, existing_handle)
  else
    let h := s.last_handle + 1
    ({ control_handles := fun k =>
        if k = h then some [reg] else s.control_handles k,
        last_handle := h },
      h)

/-! ## Dynamic-tracking speed limiter (`dynamic_tracking/util.rs`) -/

/-- `limit_speed(from_pos, to_pos, duration_ms, min_duration_full_range)`:
if the move is faster than the configured minimum full-range duration allows,
clamp the travelled distance to `duration_ms / min_duration_full_range` of the
full normalized range (positions modelled as exact rationals). -/
def limit_speed (from_pos to_pos : ℚ) (duration_ms min_duration_full_range : Nat) :
    ℚ :=
  if duration_ms < min_duration_full_range then
    let max_dist : ℚ := (duration_ms : ℚ) / (min_duration_full_range : ℚ)
    let dist := to_pos - from_pos
    let dist := if dist < 0 ∧ dist < -max_dist then -max_dist else dist
    let dist := if dist > 0 ∧ dist > max_dist then max_dist else dist
    from_pos + dist
  else to_pos

/-! ## Per-actuator view of the worker semantics

The ledger is keyed by actuator index and every scalar message touches exactly
one key, so the writes the worker performs for one actuator are determined by
the subsequence of messages addressed to it.  The following definitions give
that per-actuator semantics; the projection lemmas below relate it to
`worker_run`. -/

/-- A worker message as seen by one actuator. -/
inductive POp where
  | pstart : Speed → Bool → Int → POp
  | pupdate : Speed → Bool → Int → POp
  | pstop : Bool → Int → POp
deriving DecidableEq

/-- Project a worker message onto actuator `a`: `Move` does not touch the
ledger and `StopAll` is handled separately (it clears every key). -/
def project (a : ActuatorIndex) : WorkerTask → Option POp
  | .Start b s ip h => if b = a then some (.pstart s ip h) else none
  | .Update b s ip h => if b = a then some (.pupdate s ip h) else none
  | .End b ip h => if b = a then some (.pstop ip h) else none
  | .Move _ _ _ _ => none
  | .StopAll => none

/-- `calculate_speed` restricted to one ledger entry. -/
def entry_max : Option DeviceEntry → Option Speed
  | some entry =>
    match ((entry.linear_tasks.map (fun x => x.2.value) : List Nat)).max? with
    | some percentage => some (Speed.new (percentage : Int))
    | none => none
  | none => none

/-- The effect of one projected message on one ledger entry, with the scalar
writes it performs (mirrors `start_scalar` / `update_scalar` / `stop_scalar`
at a single key). -/
def entry_step : Option DeviceEntry → POp → Option DeviceEntry × List Speed
  | e?, .pstart s ip h =>
    match e? with
    | some e =>
      (some ⟨e.task_count + 1,
        if ip then e.linear_tasks else e.linear_tasks ++ [(h, s)]⟩, [s])
    | none => (some ⟨1, if ip then [] else [(h, s)]⟩, [s])
  | e?, .pupdate s ip h =>
    let e?' :=
      if ip then e?
      else
        match e? with
        | some e =>
          some ⟨e.task_count,
            e.linear_tasks.map (fun t => if t.1 = h then (h, s) else t)⟩
        | none => none
    (e?', [(entry_max e?').getD s])
  | e?, .pstop ip h =>
    match e? with
    | none => (none, [])
    | some e =>
      let tasks :=
        if ip then e.linear_tasks
        else e.linear_tasks.filter (fun t => t.1 ≠ h)
      let count := e.task_count - 1
      if count = 0 then (some ⟨count, tasks⟩, [Speed.minSpeed])
      else
        match entry_max (some ⟨count, tasks⟩) with
        | some s' => (some ⟨count, tasks⟩, [s'])
        | none => (some ⟨count, tasks⟩, [])

/-- Run a sequence of projected messages against one ledger entry. -/
def entry_run : Option DeviceEntry → List POp → Option DeviceEntry × List Speed
  | e?, [] => (e?, [])
  | e?, op :: ops =>
    ((entry_run (entry_step e? op).1 ops).1,
      (entry_step e? op).2 ++ (entry_run (entry_step e? op).1 ops).2)

/-- Whether a worker message is an `End` (used to count acknowledgements). -/
def isEndMsg : WorkerTask → Bool
  | .End _ _ _ => true
  | _ => false

/-! ## Helper lemmas -/

lemma Speed.new_value_le (x : Int) : (Speed.new x).value ≤ 100 := by
  simp only [Speed.new]
  omega

lemma Speed.new_eq_of_bounds (x : Int) (h0 : 0 ≤ x) (h1 : x ≤ 100) :
    Speed.new x = ⟨x.toNat⟩ := by
  simp only [Speed.new]
  congr 1
  omega

lemma between_min_max {f t x : ℚ} (h : (f ≤ x ∧ x ≤ t) ∨ (t ≤ x ∧ x ≤ f)) :
    min f t ≤ x ∧ x ≤ max f t := by
  rcases h with ⟨h1, h2⟩ | ⟨h1, h2⟩
  · exact ⟨le_trans (min_le_left f t) h1, le_trans h2 (le_max_right f t)⟩
  · exact ⟨le_trans (min_le_right f t) h1, le_trans h2 (le_max_left f t)⟩

/-! ## C7 — dynamic-tracking speed limiter -/

/-- C7 (counterexample): the claim reads the cap as a fraction of the
*requested distance*; the code caps the travelled distance at
`duration_ms / min_duration_ms` of the *full range*.  At
`limit_speed(0.75, 0.0, 100, 200)` (the repo's own test input) the position
moves 0.5, which exceeds `100/200 × |0.0 − 0.75| = 0.375`. -/
theorem C7_counterexample :
    ¬ (|limit_speed (3/4) 0 100 200 - 3/4| ≤
        ((100 : Nat) : ℚ) / ((200 : Nat) : ℚ) * |(0 : ℚ) - 3/4|) := by
  have h : limit_speed (3/4) 0 100 200 = 1/4 := by
    norm_num [limit_speed]
  rw [h]
  norm_num [abs_of_nonpos, abs_of_neg]

/-- C7 (amended): for `duration_ms < min_duration_ms` the returned position
moves at most `duration_ms / min_duration_ms` of the full normalized range
from `from_pos` toward `to_pos` (never overshooting `to_pos`); for
`duration_ms ≥ min_duration_ms` it returns `to_pos` exactly; and
`limit_speed(0.0, 1.0, 100, 200) = 0.5`. -/
theorem C7_limit_speed (f t : ℚ) (d m : Nat) :
    (d < m → |limit_speed f t d m - f| ≤ (d : ℚ) / (m : ℚ) ∧
      min f t ≤ limit_speed f t d m ∧ limit_speed f t d m ≤ max f t) ∧
    (m ≤ d → limit_speed f t d m = t) ∧
    limit_speed 0 1 100 200 = 1/2 := by
  refine ⟨?_, ?_, by norm_num [limit_speed]⟩
  · intro hdm
    have hmd : (0 : ℚ) ≤ (d : ℚ) / (m : ℚ) := by positivity
    simp only [limit_speed, if_pos hdm]
    set md := (d : ℚ) / (m : ℚ) with hmdDef
    split_ifs with h1 h2 h2
    · -- dist clamped to -md, then the positive branch cannot fire
      exfalso
      rcases h2 with ⟨h2a, _⟩
      linarith
    · -- dist clamped downward to -md
      rcases h1 with ⟨h1a, h1b⟩
      constructor
      · rw [show f + -md - f = -md by ring, abs_neg, abs_of_nonneg hmd]
      · exact between_min_max (Or.inr ⟨by linarith, by linarith⟩)
    · -- dist clamped upward to md
      rcases h2 with ⟨h2a, h2b⟩
      constructor
      · rw [show f + md - f = md by ring, abs_of_nonneg hmd]
      · exact between_min_max (Or.inl ⟨by linarith, by linarith⟩)
    · -- dist already within the cap
      push_neg at h1 h2
      have hub : t - f ≤ md := by
        rcases lt_or_le 0 (t - f) with hs | hs
        · exact h2 hs
        · linarith
      have hlb : -md ≤ t - f := by
        rcases lt_or_le (t - f) 0 with hs | hs
        · exact h1 hs
        · linarith
      constructor
      · rw [show f + (t - f) - f = t - f by ring]
        exact abs_le.mpr ⟨hlb, hub⟩
      · refine between_min_max ?_
        rcases le_total f t with hft | hft
        · exact Or.inl ⟨by linarith, by linarith⟩
        · exact Or.inr ⟨by linarith, by linarith⟩
  · intro hmd
    simp only [limit_speed, if_neg (Nat.not_lt.mpr hmd)]

/-- Witness for C7_limit_speed at concrete inputs. -/
theorem C7_limit_speed_witness :
    |limit_speed 0 1 100 200 - 0| ≤ ((100 : Nat) : ℚ) / ((200 : Nat) : ℚ) ∧
    limit_speed 1 0 200 200 = 0 := by
  constructor
  · exact ((C7_limit_speed 0 1 100 200).1 (by norm_num)).1
  · exact (C7_limit_speed 1 0 200 200).2.1 (by norm_num)

/-! ## C5 — scheduler handle allocation -/

/-- C5 (counterexample): with an empty registry and `existing_handle = 5`
(positive but not live), `create_player` registers nothing — it neither
appends under 5 nor allocates a fresh handle — and the player keeps the dead
handle 5, contradicting the claim that a non-live handle always triggers
allocation of the next handle with a single registered entry. -/
theorem C5_counterexample :
    (create_player ⟨fun _ => none, 0⟩ 7 5).1.control_handles 1 = none ∧
    (create_player ⟨fun _ => none, 0⟩ 7 5).1.last_handle = 0 ∧
    (create_player ⟨fun _ => none, 0⟩ 7 5).2 = 5 := by
  refine ⟨rfl, rfl, rfl⟩

/-- C5 (amended): if `existing_handle` is positive and live, a new
ControlRegistration is appended under it; if `existing_handle ≤ 0`, the
scheduler allocates the next, monotonically increasing, integer handle
(`last_handle + 1`) and registers a single entry for it; but if
`existing_handle` is positive and dead, the registry is left unchanged and
the player keeps the supplied handle. -/
theorem C5_create_player (s : SchedulerState) (reg : Nat) (h : Int) :
    (h > 0 → ∀ regs, s.control_handles h = some regs →
      (create_player s reg h).1.control_handles h = some (regs ++ [reg]) ∧
      (create_player s reg h).2 = h ∧
      (create_player s reg h).1.last_handle = s.last_handle) ∧
    (h > 0 → s.control_handles h = none →
      (create_player s reg h).1 = s ∧ (create_player s reg h).2 = h) ∧
    (h ≤ 0 →
      (create_player s reg h).2 = s.last_handle + 1 ∧
      s.last_handle < (create_player s reg h).2 ∧
      (create_player s reg h).1.last_handle = s.last_handle + 1 ∧
      (create_player s reg h).1.control_handles (s.last_handle + 1)
        = some [reg]) := by
  refine ⟨?_, ?_, ?_⟩
  · intro hpos regs hsome
    simp only [create_player, if_pos hpos, hsome]
    refine ⟨by simp, by simp, by simp⟩
  · intro hpos hnone
    simp only [create_player, if_pos hpos, hnone]
    exact ⟨by simp, by simp⟩
  · intro hle
    have hneg : ¬ h > 0 := by omega
    simp only [create_player, if_neg hneg]
    refine ⟨by simp, by omega, by simp, by simp⟩

/-- Witness for C5_create_player at concrete inputs. -/
theorem C5_create_player_witness :
    (create_player ⟨fun k => if k = 3 then some [11] else none, 3⟩ 7 3).1.control_handles 3
      = some [11, 7] ∧
    (create_player ⟨fun _ => none, 0⟩ 7 0).2 = 1 := by
  constructor
  · exact ((C5_create_player ⟨fun k => if k = 3 then some [11] else none, 3⟩ 7 3).1
      (by norm_num) [11] (by simp)).1
  · exact ((C5_create_player ⟨fun _ => none, 0⟩ 7 0).2.2 (by norm_num)).1

/-! ## C8 — ledger entry lifecycle -/

/-- C8 (counterexample): starting from a ledger holding one actuator with a
single active claim, the stop that brings the active count to zero performs
the minimum write but leaves the entry in the map (with `task_count = 0` and
no claims) — `stop_scalar` re-inserts the entry before branching and never
removes it. -/
theorem C8_counterexample :
    (stop_scalar (DeviceAccess.empty.insert ⟨0, 0⟩ ⟨1, [(1, ⟨40⟩)]⟩)
        ⟨0, 0⟩ false 1).2 = some Speed.minSpeed ∧
    (stop_scalar (DeviceAccess.empty.insert ⟨0, 0⟩ ⟨1, [(1, ⟨40⟩)]⟩)
        ⟨0, 0⟩ false 1).1 ⟨0, 0⟩ = some ⟨0, []⟩ := by
  constructor <;> rfl

/-- Helper: the map `stop_scalar` leaves behind when the entry exists. -/
lemma stop_scalar_fst (m : DeviceAccess) (a : ActuatorIndex) (ip : Bool)
    (hd : Int) (e : DeviceEntry) (he : m a = some e) :
    (stop_scalar m a ip hd).1 =
      m.insert a ⟨e.task_count - 1,
        if ip then e.linear_tasks
        else e.linear_tasks.filter (fun t => t.1 ≠ hd)⟩ := by
  simp only [stop_scalar, he]
  split
  · rfl
  · split <;> rfl

/-- C8 (amended): the ledger entry for an actuator is created on the
actuator's first claim, but a stop never removes it — after every stop,
including the one that brings the active count to zero, the entry persists
(with the decremented count and this handle's claims removed); entries are
only ever removed by `clear_all`. -/
theorem C8_entry_lifecycle (m : DeviceAccess) (a : ActuatorIndex) :
    (m a = none → ∀ (s : Speed) (ip : Bool) (hd : Int),
      (start_scalar m a s ip hd).1 a =
        some ⟨1, if ip then [] else [(hd, s)]⟩) ∧
    (∀ e, m a = some e → ∀ (ip : Bool) (hd : Int),
      (stop_scalar m a ip hd).1 a =
        some ⟨e.task_count - 1,
          if ip then e.linear_tasks
          else e.linear_tasks.filter (fun t => t.1 ≠ hd)⟩) ∧
    clear_all m a = none := by
  refine ⟨?_, ?_, rfl⟩
  · intro hnone s ip hd
    simp [start_scalar, hnone, DeviceAccess.insert]
  · intro e he ip hd
    rw [stop_scalar_fst m a ip hd e he]
    simp [DeviceAccess.insert]

/-- Witness for C8_entry_lifecycle at concrete inputs. -/
theorem C8_entry_lifecycle_witness :
    (start_scalar DeviceAccess.empty ⟨0, 0⟩ ⟨40⟩ false 1).1 ⟨0, 0⟩
      = some ⟨1, [(1, ⟨40⟩)]⟩ ∧
    (stop_scalar (DeviceAccess.empty.insert ⟨0, 0⟩ ⟨1, [(1, ⟨40⟩)]⟩)
        ⟨0, 0⟩ false 1).1 ⟨0, 0⟩ = some ⟨0, []⟩ := by
  constructor
  · exact (C8_entry_lifecycle DeviceAccess.empty ⟨0, 0⟩).1 rfl ⟨40⟩ false 1
  · have h := (C8_entry_lifecycle
      (DeviceAccess.empty.insert ⟨0, 0⟩ ⟨1, [(1, ⟨40⟩)]⟩) ⟨0, 0⟩).2.1
      ⟨1, [(1, ⟨40⟩)]⟩ rfl false 1
    simpa using h

/-! ## C10 — saturating decrement on stop -/

/-- C10: `stop_scalar` decrements the per-actuator task count with saturating
subtraction (modelled by truncated `Nat` subtraction): a stop on an absent
entry is a no-op returning `Ok`; on a present entry the count always becomes
`task_count - 1 ≥ 0` (no underflow, no panic); and a surplus stop — one
arriving when the count is already zero — keeps the count at zero and takes
the write-minimum (hardware stop) branch. -/
theorem C10_stop_saturating (m : DeviceAccess) (a : ActuatorIndex) (ip : Bool)
    (hd : Int) :
    (m a = none → stop_scalar m a ip hd = (m, none)) ∧
    (∀ e, m a = some e →
      ((stop_scalar m a ip hd).1 a).map DeviceEntry.task_count =
        some (e.task_count - 1)) ∧
    (∀ e, m a = some e → e.task_count = 0 →
      ((stop_scalar m a ip hd).1 a).map DeviceEntry.task_count = some 0 ∧
      (stop_scalar m a ip hd).2 = some Speed.minSpeed) := by
  refine ⟨?_, ?_, ?_⟩
  · intro hnone
    simp [stop_scalar, hnone]
  · intro e he
    rw [stop_scalar_fst m a ip hd e he]
    simp [DeviceAccess.insert]
  · intro e he hzero
    constructor
    · rw [stop_scalar_fst m a ip hd e he]
      simp [DeviceAccess.insert, hzero]
    · have hc : e.task_count - 1 = 0 := by omega
      simp only [stop_scalar, he, hc]
      simp

/-- Witness for C10_stop_saturating: a surplus stop on an entry whose count is
already zero keeps it at zero and writes the minimum. -/
theorem C10_stop_saturating_witness :
    ((stop_scalar (DeviceAccess.empty.insert ⟨0, 0⟩ ⟨0, []⟩) ⟨0, 0⟩ false 9).1
        ⟨0, 0⟩).map DeviceEntry.task_count = some 0 ∧
    (stop_scalar (DeviceAccess.empty.insert ⟨0, 0⟩ ⟨0, []⟩) ⟨0, 0⟩ false 9).2
      = some Speed.minSpeed := by
  exact (C10_stop_saturating (DeviceAccess.empty.insert ⟨0, 0⟩ ⟨0, []⟩)
    ⟨0, 0⟩ false 9).2.2 ⟨0, []⟩ rfl rfl

/-! ## C3 — pattern updates versus constant claims -/

/-- C3 (counterexample): with one constant claim (handle 1, intensity 50)
recorded for the actuator, a pattern update supplying intensity 80 writes 50
— the maximum constant claim — not its own value, refuting the claim that a
pattern update writes its own supplied value regardless of constant claims. -/
theorem C3_counterexample :
    (update_scalar (DeviceAccess.empty.insert ⟨0, 0⟩ ⟨2, [(1, ⟨50⟩)]⟩)
        ⟨0, 0⟩ ⟨80⟩ true 2).2 ≠ (⟨80⟩ : Speed) ∧
    (update_scalar (DeviceAccess.empty.insert ⟨0, 0⟩ ⟨2, [(1, ⟨50⟩)]⟩)
        ⟨0, 0⟩ ⟨80⟩ true 2).2 = (⟨50⟩ : Speed) := by
  constructor
  · decide
  · decide

/-- C3 (amended): a pattern update leaves the ledger unchanged, and the
intensity written is the resolved one: the pattern's own supplied value only
when no constant claims are recorded for the actuator; otherwise the maximum
among the recorded constant claims. -/
theorem C3_pattern_update_resolved (m : DeviceAccess) (a : ActuatorIndex)
    (ns : Speed) (hd : Int) :
    (update_scalar m a ns true hd).1 = m ∧
    ((m a = none ∨ ∃ e, m a = some e ∧ e.linear_tasks = []) →
      (update_scalar m a ns true hd).2 = ns) ∧
    (∀ e v, m a = some e →
      (e.linear_tasks.map (fun t => t.2.value)).max? = some v →
      (update_scalar m a ns true hd).2 = Speed.new v) := by
  refine ⟨rfl, ?_, ?_⟩
  · rintro (hnone | ⟨e, he, hempty⟩)
    · simp [update_scalar, calculate_speed, hnone]
    · simp [update_scalar, calculate_speed, he, hempty]
  · intro e v he hmax
    have h1 : (update_scalar m a ns true hd).2 = (calculate_speed m a).getD ns := rfl
    rw [h1]
    simp only [calculate_speed, he, hmax, Option.getD_some]

/-- Witness for C3_pattern_update_resolved at concrete inputs. -/
theorem C3_pattern_update_resolved_witness :
    (update_scalar DeviceAccess.empty ⟨0, 0⟩ ⟨80⟩ true 2).2 = (⟨80⟩ : Speed) ∧
    (update_scalar (DeviceAccess.empty.insert ⟨0, 0⟩ ⟨2, [(1, ⟨50⟩)]⟩)
        ⟨0, 0⟩ ⟨80⟩ true 2).2 = Speed.new 50 := by
  constructor
  · exact (C3_pattern_update_resolved DeviceAccess.empty ⟨0, 0⟩ ⟨80⟩ 2).2.1
      (Or.inl rfl)
  · exact (C3_pattern_update_resolved
      (DeviceAccess.empty.insert ⟨0, 0⟩ ⟨2, [(1, ⟨50⟩)]⟩) ⟨0, 0⟩ ⟨80⟩ 2).2.2
      ⟨2, [(1, ⟨50⟩)]⟩ 50 rfl (by decide)

/-! ## C1 — arbitration max-wins -/

/-- Helper: the write `stop_scalar` performs when the entry exists. -/
lemma stop_scalar_snd (m : DeviceAccess) (a : ActuatorIndex) (ip : Bool)
    (hd : Int) (e : DeviceEntry) (he : m a = some e) :
    (stop_scalar m a ip hd).2 =
      if e.task_count - 1 = 0 then some Speed.minSpeed
      else calculate_speed (m.insert a ⟨e.task_count - 1,
        if ip then e.linear_tasks
        else e.linear_tasks.filter (fun t => t.1 ≠ hd)⟩) a := by
  simp only [stop_scalar, he]
  by_cases hc : e.task_count - 1 = 0
  · rw [if_pos hc, if_pos hc]
  · rw [if_neg hc, if_neg hc]
    cases hcalc : calculate_speed (m.insert a ⟨e.task_count - 1,
        if ip then e.linear_tasks
        else e.linear_tasks.filter (fun t => t.1 ≠ hd)⟩) a <;>
      simp [hcalc]

/-- C1: with constant (non-pattern) claims recorded for an actuator, every
ledger update writes the maximum intensity among the updated constant claims;
a stop that leaves other tasks active writes the maximum among the remaining
claims (so stopping the highest claim drops the written intensity to the
next-highest); and the stop that brings the active count to zero writes the
minimum intensity, whose value is 0. -/
theorem C1_max_wins (m : DeviceAccess) (a : ActuatorIndex) (e : DeviceEntry)
    (he : m a = some e) (hd hstop : Int) (ns : Speed) :
    (∀ v, ((e.linear_tasks.map (fun t =>
          if t.1 = hd then (hd, ns) else t)).map (fun t => t.2.value)).max?
        = some v →
      (update_scalar m a ns false hd).2 = Speed.new (v : Int)) ∧
    (∀ v, 1 < e.task_count →
      ((e.linear_tasks.filter (fun t => t.1 ≠ hstop)).map
          (fun t => t.2.value)).max? = some v →
      (stop_scalar m a false hstop).2 = some (Speed.new (v : Int))) ∧
    (e.task_count ≤ 1 →
      (stop_scalar m a false hstop).2 = some Speed.minSpeed ∧
      Speed.minSpeed.value = 0) ∧
    (∀ v : Nat, v ≤ 100 → (Speed.new (v : Int)).value = v) := by
  refine ⟨?_, ?_, ?_, ?_⟩
  · intro v hv
    have h1 : (update_scalar m a ns false hd).2
        = (calculate_speed (update_scalar m a ns false hd).1 a).getD ns := rfl
    rw [h1]
    have h2 : (update_scalar m a ns false hd).1 a
        = some (⟨e.task_count,
            e.linear_tasks.map (fun t => if t.1 = hd then (hd, ns) else t)⟩
            : DeviceEntry) := by
      show (match m a with
        | some entry =>
          m.insert a { entry with
            linear_tasks := entry.linear_tasks.map (fun (t : Int × Speed) =>
              if t.1 = hd then (hd, ns) else t) }
        | none => m) a = _
      rw [he]
      simp [DeviceAccess.insert]
    simp only [calculate_speed, h2, hv, Option.getD_some]
  · intro v hcount hv
    have hne : ¬ (e.task_count - 1 = 0) := by omega
    rw [stop_scalar_snd m a false hstop e he, if_neg hne]
    show calculate_speed (m.insert a ⟨e.task_count - 1,
        e.linear_tasks.filter (fun t => t.1 ≠ hstop)⟩) a = some (Speed.new (v : Int))
    have hme : (m.insert a (⟨e.task_count - 1,
        e.linear_tasks.filter (fun t => t.1 ≠ hstop)⟩ : DeviceEntry)) a
        = some ⟨e.task_count - 1, e.linear_tasks.filter (fun t => t.1 ≠ hstop)⟩ := by
      simp [DeviceAccess.insert]
    simp only [calculate_speed, hme, hv]
  · intro hle
    have hc : e.task_count - 1 = 0 := by omega
    rw [stop_scalar_snd m a false hstop e he, if_pos hc]
    exact ⟨rfl, rfl⟩
  · intro v hv100
    simp only [Speed.new]
    omega

/-- Witness for C1_max_wins: claims A = (handle 1, 20) and B = (handle 2, 40)
are both active; stopping B writes 20, the remaining maximum; stopping the
last claim writes the minimum; an update of A to 70 writes 70, the new
maximum. -/
theorem C1_max_wins_witness :
    (stop_scalar (DeviceAccess.empty.insert ⟨0, 0⟩ ⟨2, [(1, ⟨20⟩), (2, ⟨40⟩)]⟩)
        ⟨0, 0⟩ false 2).2 = some (Speed.new ((20 : Nat) : Int)) ∧
    (stop_scalar (DeviceAccess.empty.insert ⟨0, 0⟩ ⟨1, [(1, ⟨20⟩)]⟩)
        ⟨0, 0⟩ false 1).2 = some Speed.minSpeed ∧
    (update_scalar (DeviceAccess.empty.insert ⟨0, 0⟩ ⟨2, [(1, ⟨20⟩), (2, ⟨40⟩)]⟩)
        ⟨0, 0⟩ ⟨70⟩ false 1).2 = Speed.new ((70 : Nat) : Int) := by
  refine ⟨?_, ?_, ?_⟩
  · exact (C1_max_wins
      (DeviceAccess.empty.insert ⟨0, 0⟩ ⟨2, [(1, ⟨20⟩), (2, ⟨40⟩)]⟩) ⟨0, 0⟩
      ⟨2, [(1, ⟨20⟩), (2, ⟨40⟩)]⟩ rfl 1 2 ⟨70⟩).2.1 20 (by decide) (by decide)
  · exact ((C1_max_wins
      (DeviceAccess.empty.insert ⟨0, 0⟩ ⟨1, [(1, ⟨20⟩)]⟩) ⟨0, 0⟩
      ⟨1, [(1, ⟨20⟩)]⟩ rfl 1 1 ⟨70⟩).2.2.1 (by decide)).1
  · exact (C1_max_wins
      (DeviceAccess.empty.insert ⟨0, 0⟩ ⟨2, [(1, ⟨20⟩), (2, ⟨40⟩)]⟩) ⟨0, 0⟩
      ⟨2, [(1, ⟨20⟩), (2, ⟨40⟩)]⟩ rfl 1 2 ⟨70⟩).1 70 (by decide)

/-! ## C4 — scalar limits on Start/Update -/

/-- C4 (counterexample): `apply_scalar_settings` returns intensity 0
unchanged before consulting the limits, so with configured limits
`min_speed = 10, max_speed = 100, factor = 1` the emitted intensity for input
0 is 0, not the claimed clamp into `[min_speed, max_speed]` (which would give
10). -/
theorem C4_counterexample :
    apply_scalar_settings ⟨0⟩ (ActuatorLimits.Scalar ⟨10, 100, 1⟩) = (⟨0⟩ : Speed) ∧
    spec_scalar_limit ⟨0⟩ ⟨10, 100, 1⟩ = (⟨10⟩ : Speed) ∧
    apply_scalar_settings ⟨0⟩ (ActuatorLimits.Scalar ⟨10, 100, 1⟩)
      ≠ spec_scalar_limit ⟨0⟩ ⟨10, 100, 1⟩ := by
  have h1 : apply_scalar_settings ⟨0⟩ (ActuatorLimits.Scalar ⟨10, 100, 1⟩)
      = (⟨0⟩ : Speed) := rfl
  have h2 : spec_scalar_limit ⟨0⟩ ⟨10, 100, 1⟩ = (⟨10⟩ : Speed) := by
    simp only [spec_scalar_limit, Speed.from_float, Speed.as_float, Speed.new]
    norm_num
    decide
  refine ⟨h1, h2, ?_⟩
  rw [h1, h2]
  simp

/-- C4 (amended): for every *positive* input intensity and well-formed scalar
limits (`0 ≤ min_speed ≤ max_speed ≤ 100`), the intensity a Player sends
equals the input multiplied by the configured factor and clamped into
`[min_speed, max_speed]`; and every `Start`/`Update` message emitted by
`do_scalar`/`do_update` carries exactly `apply_scalar_settings` of the input.
Input 0 bypasses the limits and is sent unchanged. -/
theorem C4_scalar_limits (speed : Speed) (r : ScalarRange)
    (hpos : 0 < speed.value) (h0 : 0 ≤ r.min_speed)
    (hmm : r.min_speed ≤ r.max_speed) (h100 : r.max_speed ≤ 100) :
    apply_scalar_settings speed (ActuatorLimits.Scalar r)
      = spec_scalar_limit speed r ∧
    ∀ (acts : List ActuatorM) (ip : Bool) (hdl : Int) (c : ActuatorM),
      c ∈ acts →
      WorkerTask.Start c.idx (apply_scalar_settings speed c.limits) ip hdl
        ∈ do_scalar_msgs acts speed ip hdl ∧
      WorkerTask.Update c.idx (apply_scalar_settings speed c.limits) ip hdl
        ∈ do_update_msgs acts speed ip hdl := by
  constructor
  · have hv100 : (Speed.from_float (speed.as_float * r.factor)).value ≤ 100 :=
      Speed.new_value_le _
    have hmodmin : ((r.min_speed % 65536).toNat) = r.min_speed.toNat := by omega
    have hmodmax : ((r.max_speed % 65536).toNat) = r.max_speed.toNat := by omega
    have hminmax : r.min_speed.toNat ≤ r.max_speed.toNat := by omega
    simp only [apply_scalar_settings, spec_scalar_limit,
      if_neg (by omega : ¬ speed.value = 0), hmodmin, hmodmax]
    split_ifs with hlt hgt
    · rw [Speed.new_eq_of_bounds r.min_speed h0 (le_trans hmm h100)]
      simp only [Speed.mk.injEq]
      omega
    · rw [Speed.new_eq_of_bounds r.max_speed (le_trans h0 hmm) h100]
      simp only [Speed.mk.injEq]
      omega
    · show (⟨(Speed.from_float (speed.as_float * r.factor)).value⟩ : Speed) = _
      simp only [Speed.mk.injEq]
      omega
  · intro acts ip hdl c hc
    constructor
    · simp only [do_scalar_msgs]
      exact List.mem_map.mpr ⟨c, hc, rfl⟩
    · simp only [do_update_msgs]
      exact List.mem_map.mpr ⟨c, hc, rfl⟩

/-- Witness for C4_scalar_limits: intensity 50 under limits
`min = 10, max = 80, factor = 2` is sent as 80 (factor then clamp). -/
theorem C4_scalar_limits_witness :
    apply_scalar_settings ⟨50⟩ (ActuatorLimits.Scalar ⟨10, 80, 2⟩)
      = spec_scalar_limit ⟨50⟩ ⟨10, 80, 2⟩ ∧
    WorkerTask.Start ⟨0, 0⟩
        (apply_scalar_settings ⟨50⟩
          (ActuatorM.mk ⟨0, 0⟩ (ActuatorLimits.Scalar ⟨10, 80, 2⟩)).limits) true 1
      ∈ do_scalar_msgs [⟨⟨0, 0⟩, ActuatorLimits.Scalar ⟨10, 80, 2⟩⟩] ⟨50⟩ true 1 := by
  constructor
  · exact (C4_scalar_limits ⟨50⟩ ⟨10, 80, 2⟩ (by norm_num) (by norm_num)
      (by norm_num) (by norm_num)).1
  · exact ((C4_scalar_limits ⟨50⟩ ⟨10, 80, 2⟩ (by norm_num) (by norm_num)
      (by norm_num) (by norm_num)).2
      [⟨⟨0, 0⟩, ActuatorLimits.Scalar ⟨10, 80, 2⟩⟩] true 1
      ⟨⟨0, 0⟩, ActuatorLimits.Scalar ⟨10, 80, 2⟩⟩ (by simp)).1

/-! ## C6 — empty / all-at-zero patterns are no-ops -/

/-- C6: when the action list is empty or every action sits at timestamp 0,
both `play_scalar_pattern` and `play_linear` return `Ok` immediately, sending
no messages to the worker — hence no device write occurs. -/
theorem C6_empty_pattern_noop (acts : List ActuatorM) (actions : List FSPoint)
    (res : Int) (speed : Speed) (hdl : Int) (fuel : Nat) (updates : List Speed)
    (stop_results move_results : List WResult)
    (hguard : empty_or_all_zero actions = true) :
    play_scalar_pattern_model acts actions res speed hdl fuel updates
        stop_results = ([], WResult.ok) ∧
    play_linear_model acts actions fuel move_results = ([], WResult.ok) := by
  constructor
  · simp only [play_scalar_pattern_model, if_pos hguard]
  · simp only [play_linear_model, if_pos hguard]

/-- Witness for C6_empty_pattern_noop: a one-action pattern at timestamp 0. -/
theorem C6_empty_pattern_noop_witness :
    play_scalar_pattern_model [⟨⟨0, 0⟩, ActuatorLimits.None⟩] [⟨50, 0⟩]
        1 ⟨100⟩ 1 5 [] [] = ([], WResult.ok) ∧
    play_linear_model [⟨⟨0, 0⟩, ActuatorLimits.None⟩] [] 5 [] = ([], WResult.ok) := by
  constructor
  · exact (C6_empty_pattern_noop [⟨⟨0, 0⟩, ActuatorLimits.None⟩] [⟨50, 0⟩]
      1 ⟨100⟩ 1 5 [] [] [] (by decide)).1
  · exact (C6_empty_pattern_noop [⟨⟨0, 0⟩, ActuatorLimits.None⟩] []
      1 ⟨100⟩ 1 5 [] [] [] (by decide)).2

/-! ## C9 — last-result-wins aggregation in do_stop -/

/-- Helper: the receive loop keeps the last of `n` received results. -/
lemma recv_loop_eq (n : Nat) : ∀ (last : WResult) (results : List WResult),
    results.length = n → recv_loop n last results = results.getLastD last := by
  induction n with
  | zero =>
    intro last results h
    rw [List.length_eq_zero] at h
    subst h
    rfl
  | succ n ih =>
    intro last results h
    cases results with
    | nil => simp at h
    | cons r rest =>
      have hlen : rest.length = n := by simpa using h
      show recv_loop n r rest = (r :: rest).getLastD last
      rw [ih r rest hlen, List.getLastD_cons]

/-- C9: finalization over several actuators sends exactly one `End` per
actuator, then receives one result per actuator sequentially, returning the
last result received — so an error reported for an earlier actuator is masked
by a later actuator's success. -/
theorem C9_last_result_wins (acts : List ActuatorM) (ip : Bool) (hdl : Int)
    (results : List WResult) (hlen : results.length = acts.length) :
    do_stop_msgs acts ip hdl
      = acts.map (fun a => WorkerTask.End a.idx ip hdl) ∧
    (do_stop_msgs acts ip hdl).length = acts.length ∧
    do_stop_result acts results = results.getLastD WResult.ok := by
  refine ⟨rfl, by simp [do_stop_msgs], ?_⟩
  exact recv_loop_eq acts.length WResult.ok results hlen

/-- Witness for C9_last_result_wins: with two actuators, an error received
for the first is overwritten by the success received for the second. -/
theorem C9_last_result_wins_witness :
    do_stop_result [⟨⟨0, 0⟩, ActuatorLimits.None⟩, ⟨⟨1, 0⟩, ActuatorLimits.None⟩]
      [WResult.err ⟨0, 0⟩, WResult.ok] = WResult.ok := by
  have h := (C9_last_result_wins
    [⟨⟨0, 0⟩, ActuatorLimits.None⟩, ⟨⟨1, 0⟩, ActuatorLimits.None⟩] false 1
    [WResult.err ⟨0, 0⟩, WResult.ok] (by decide)).2.2
  simpa using h

/-! ## C2 — projection lemmas relating the worker to the per-actuator view -/

lemma calc_eq_entry_max (m : DeviceAccess) (a : ActuatorIndex) :
    calculate_speed m a = entry_max (m a) := rfl

lemma DeviceAccess.insert_self (m : DeviceAccess) (a : ActuatorIndex)
    (v : DeviceEntry) : (m.insert a v) a = some v := by
  simp [DeviceAccess.insert]

/-- A worker message not addressed to `a` (and not `StopAll`) leaves `a`'s
ledger entry untouched and performs no write on `a`. -/
lemma worker_step_proj_none (a : ActuatorIndex) (m : DeviceAccess)
    (t : WorkerTask) (hns : t ≠ WorkerTask.StopAll)
    (hp : project a t = none) :
    (worker_step m t).1 a = m a ∧
    (worker_step m t).2.1.filter (fun w => w.1 = a) = [] := by
  cases t with
  | Start b s ip hd =>
    have hb : ¬ b = a := by
      intro h
      simp [project, h] at hp
    have hab : ¬ a = b := fun h => hb h.symm
    constructor
    · cases hmb : m b <;>
        simp [worker_step, start_scalar, DeviceAccess.insert, hmb, hab]
    · simp [worker_step, hb]
  | Update b s ip hd =>
    have hb : ¬ b = a := by
      intro h
      simp [project, h] at hp
    have hab : ¬ a = b := fun h => hb h.symm
    constructor
    · cases ip <;> cases hmb : m b <;>
        simp [worker_step, update_scalar, DeviceAccess.insert, hmb, hab]
    · simp [worker_step, hb]
  | End b ip hd =>
    have hb : ¬ b = a := by
      intro h
      simp [project, h] at hp
    have hab : ¬ a = b := fun h => hb h.symm
    constructor
    · cases hmb : m b with
      | none => simp [worker_step, stop_scalar, hmb]
      | some e =>
        show (stop_scalar m b ip hd).1 a = m a
        rw [stop_scalar_fst m b ip hd e hmb]
        simp [DeviceAccess.insert, hab]
    · cases h2 : (stop_scalar m b ip hd).2 <;> simp [worker_step, h2, hb]
  | Move b pos dur fin => exact ⟨rfl, rfl⟩
  | StopAll => exact absurd rfl hns

/-- The entry `entry_step` leaves behind on a stop. -/
lemma entry_step_pstop_fst (e? : Option DeviceEntry) (ip : Bool) (hd : Int) :
    (entry_step e? (POp.pstop ip hd)).1 =
      match e? with
      | none => none
      | some e => some ⟨e.task_count - 1,
          if ip then e.linear_tasks
          else e.linear_tasks.filter (fun t => t.1 ≠ hd)⟩ := by
  cases e? with
  | none => rfl
  | some e =>
    simp only [entry_step]
    split
    · rfl
    · split <;> rfl

/-- The writes `entry_step` performs on a stop of an existing entry. -/
lemma entry_step_pstop_snd (e : DeviceEntry) (ip : Bool) (hd : Int) :
    (entry_step (some e) (POp.pstop ip hd)).2 =
      (if e.task_count - 1 = 0 then some Speed.minSpeed
        else entry_max (some ⟨e.task_count - 1,
          if ip then e.linear_tasks
          else e.linear_tasks.filter (fun t => t.1 ≠ hd)⟩)).toList := by
  simp only [entry_step]
  by_cases hc : e.task_count - 1 = 0
  · simp [hc]
  · rw [if_neg hc, if_neg hc]
    cases hm : entry_max (some ⟨e.task_count - 1,
        if ip then e.linear_tasks
        else e.linear_tasks.filter (fun t => t.1 ≠ hd)⟩) <;>
      simp [hm]

/-- Write lists, projected to the actuator that produced them. -/
lemma opt_writes (a : ActuatorIndex) (o : Option Speed) :
    (((o.map (fun s => (a, s))).toList.filter (fun w => w.1 = a)).map
        (fun w => w.2)) = o.toList := by
  cases o <;> simp

/-- A worker message addressed to `a` acts on `a`'s ledger entry exactly as
`entry_step` does, and performs exactly the writes `entry_step` records. -/
lemma worker_step_proj_some (a : ActuatorIndex) (m : DeviceAccess)
    (t : WorkerTask) (op : POp) (hp : project a t = some op) :
    (worker_step m t).1 a = (entry_step (m a) op).1 ∧
    ((worker_step m t).2.1.filter (fun w => w.1 = a)).map (fun w => w.2)
      = (entry_step (m a) op).2 := by
  cases t with
  | Start b s ip hd =>
    by_cases hb : b = a
    · subst hb
      simp only [project, if_pos rfl, if_true, Option.some.injEq] at hp
      subst hp
      constructor
      · cases hmb : m b <;>
          simp [worker_step, start_scalar, entry_step, DeviceAccess.insert, hmb]
      · cases hmb : m b <;>
          simp [worker_step, start_scalar, entry_step, hmb]
    · simp [project, hb] at hp
  | Update b s ip hd =>
    by_cases hb : b = a
    · subst hb
      simp only [project, if_pos rfl, if_true, Option.some.injEq] at hp
      subst hp
      have hfst : (update_scalar m b s ip hd).1 b
          = (entry_step (m b) (POp.pupdate s ip hd)).1 := by
        cases ip <;> cases hmb : m b <;>
          simp [update_scalar, entry_step, DeviceAccess.insert, hmb]
      refine ⟨hfst, ?_⟩
      have hw : (update_scalar m b s ip hd).2
          = (calculate_speed (update_scalar m b s ip hd).1 b).getD s := rfl
      show ([(b, (update_scalar m b s ip hd).2)].filter (fun w => w.1 = b)).map
          (fun w => w.2) = _
      rw [hw, calc_eq_entry_max, hfst]
      simp [entry_step]
    · simp [project, hb] at hp
  | End b ip hd =>
    by_cases hb : b = a
    · subst hb
      simp only [project, if_pos rfl, if_true, Option.some.injEq] at hp
      subst hp
      constructor
      · cases hmb : m b with
        | none => simp [worker_step, stop_scalar, entry_step, hmb]
        | some e =>
          show (stop_scalar m b ip hd).1 b = _
          rw [stop_scalar_fst m b ip hd e hmb, entry_step_pstop_fst]
          simp [DeviceAccess.insert_self]
      · cases hmb : m b with
        | none =>
          show (((stop_scalar m b ip hd).2.map (fun s => (b, s))).toList.filter
              (fun w => w.1 = b)).map (fun w => w.2) = _
          simp [stop_scalar, entry_step, hmb]
        | some e =>
          show (((stop_scalar m b ip hd).2.map (fun s => (b, s))).toList.filter
              (fun w => w.1 = b)).map (fun w => w.2) = _
          rw [opt_writes, stop_scalar_snd m b ip hd e hmb, entry_step_pstop_snd]
          by_cases hc : e.task_count - 1 = 0
          · rw [if_pos hc, if_pos hc]
          · rw [if_neg hc, if_neg hc, calc_eq_entry_max, DeviceAccess.insert_self]
    · simp [project, hb] at hp
  | Move b pos dur fin => simp [project] at hp
  | StopAll => simp [project] at hp

/-- The writes the worker performs for one actuator over a whole queue (free
of `StopAll`) are exactly those of the per-actuator run on the projected
message subsequence, and the final ledger entry matches. -/
lemma worker_run_proj (a : ActuatorIndex) :
    ∀ (msgs : List WorkerTask) (m : DeviceAccess),
      WorkerTask.StopAll ∉ msgs →
      (worker_run m msgs).1 a = (entry_run (m a) (msgs.filterMap (project a))).1 ∧
      ((worker_run m msgs).2.1.filter (fun w => w.1 = a)).map (fun w => w.2)
        = (entry_run (m a) (msgs.filterMap (project a))).2 := by
  intro msgs
  induction msgs with
  | nil => intro m _; exact ⟨rfl, rfl⟩
  | cons t ts ih =>
    intro m hns
    have hts : WorkerTask.StopAll ∉ ts := fun h => hns (List.mem_cons_of_mem _ h)
    have htne : t ≠ WorkerTask.StopAll := by
      intro h
      exact hns (by rw [h]; exact List.mem_cons_self _ _)
    cases hp : project a t with
    | none =>
      have hstep := worker_step_proj_none a m t htne hp
      have hrest := ih (worker_step m t).1 hts
      rw [List.filterMap_cons, hp]
      constructor
      · show (worker_run (worker_step m t).1 ts).1 a = _
        rw [hrest.1, hstep.1]
      · show (((worker_step m t).2.1 ++
            (worker_run (worker_step m t).1 ts).2.1).filter
            (fun w => w.1 = a)).map (fun w => w.2) = _
        rw [List.filter_append, hstep.2, List.nil_append, hrest.2, hstep.1]
    | some op =>
      have hstep := worker_step_proj_some a m t op hp
      have hrest := ih (worker_step m t).1 hts
      rw [List.filterMap_cons, hp]
      constructor
      · show (worker_run (worker_step m t).1 ts).1 a =
          (entry_run (entry_step (m a) op).1 (ts.filterMap (project a))).1
        rw [hrest.1, hstep.1]
      · show (((worker_step m t).2.1 ++
            (worker_run (worker_step m t).1 ts).2.1).filter
            (fun w => w.1 = a)).map (fun w => w.2) =
          (entry_step (m a) op).2 ++
            (entry_run (entry_step (m a) op).1 (ts.filterMap (project a))).2
        rw [List.filter_append, List.map_append, hstep.2, hrest.2, hstep.1]

/-- With index-distinct actuators, an actuator's index determines its list
element. -/
lemma nodup_idx_unique :
    ∀ (acts : List ActuatorM), (acts.map ActuatorM.idx).Nodup →
      ∀ c, c ∈ acts → ∀ b, b ∈ acts → b.idx = c.idx → b = c := by
  intro acts
  induction acts with
  | nil => intro _ c hc; cases hc
  | cons x xs ih =>
    intro hnd c hc b hb heq
    rw [List.map_cons, List.nodup_cons] at hnd
    rcases List.mem_cons.mp hc with hcx | hcs
    · rcases List.mem_cons.mp hb with hbx | hbs
      · rw [hcx, hbx]
      · exfalso
        apply hnd.1
        rw [hcx] at heq
        exact List.mem_map.mpr ⟨b, hbs, heq⟩
    · rcases List.mem_cons.mp hb with hbx | hbs
      · exfalso
        apply hnd.1
        subst hbx
        exact List.mem_map.mpr ⟨c, hcs, heq.symm⟩
      · exact ih hnd.2 c hcs b hbs heq

/-- Projecting one per-actuator message block (a `map` over index-distinct
actuators) keeps exactly the unique message addressed to `c`. -/
lemma filterMap_project_block (c : ActuatorM) :
    ∀ (acts : List ActuatorM), (acts.map ActuatorM.idx).Nodup → c ∈ acts →
      ∀ (F : ActuatorM → WorkerTask) (g : ActuatorM → POp),
      (∀ b, project c.idx (F b) = if b.idx = c.idx then some (g b) else none) →
      (acts.map F).filterMap (project c.idx) = [g c] := by
  intro acts
  induction acts with
  | nil => intro _ hc; cases hc
  | cons x xs ih =>
    intro hnd hc F g hF
    rw [List.map_cons, List.nodup_cons] at hnd
    rw [List.map_cons, List.filterMap_cons]
    by_cases hx : x.idx = c.idx
    · have hxc : x = c := by
        rcases List.mem_cons.mp hc with h | h
        · rw [h]
        · exact absurd (List.mem_map.mpr ⟨c, h, hx.symm⟩) hnd.1
      rw [hF x, if_pos hx]
      have hnone : (xs.map F).filterMap (project c.idx) = [] := by
        rw [List.filterMap_eq_nil_iff]
        intro w hw
        rcases List.mem_map.mp hw with ⟨b, hb, hbF⟩
        rw [← hbF, hF b, if_neg]
        intro hbc
        exact hnd.1 (List.mem_map.mpr ⟨b, hb, by rw [hbc, ← hx]⟩)
      rw [hnone, hxc]
    · have hcs : c ∈ xs := by
        rcases List.mem_cons.mp hc with h | h
        · exact absurd (by rw [h]) hx
        · exact h
      rw [hF x, if_neg hx]
      exact ih hnd.2 hcs F g hF

/-- `filterMap` distributes over `flatten`. -/
lemma filterMap_flatten_eq {α β : Type} (f : α → Option β) :
    ∀ (L : List (List α)),
      L.flatten.filterMap f = (L.map (fun l => l.filterMap f)).flatten := by
  intro L
  induction L with
  | nil => rfl
  | cons x xs ih => simp [List.filterMap_append, ih]

/-- Flattening a list of singletons is a plain `map`. -/
lemma flatten_map_singleton {α β : Type} (g : α → β) :
    ∀ (l : List α), (l.map (fun x => [g x])).flatten = l.map g := by
  intro l
  induction l with
  | nil => rfl
  | cons x xs ih => simp [ih]

/-- One constant claim, any number of live updates, then the stop: the last
write the per-actuator run performs is the minimum intensity. -/
lemma entry_run_update_stop (hdl : Int) (f : Speed → Speed) :
    ∀ (us : List Speed) (x : Speed),
      ((entry_run (some ⟨1, [(hdl, x)]⟩)
          (us.map (fun u => POp.pupdate (f u) false hdl) ++
            [POp.pstop false hdl])).2).getLast? = some Speed.minSpeed := by
  intro us
  induction us with
  | nil =>
    intro x
    show ((entry_step (some ⟨1, [(hdl, x)]⟩) (POp.pstop false hdl)).2 ++
        (entry_run (entry_step (some ⟨1, [(hdl, x)]⟩)
          (POp.pstop false hdl)).1 []).2).getLast? = some Speed.minSpeed
    rw [entry_step_pstop_snd]
    rfl
  | cons u us ih =>
    intro x
    have hstep1 : (entry_step (some (⟨1, [(hdl, x)]⟩ : DeviceEntry))
        (POp.pupdate (f u) false hdl)).1 = some ⟨1, [(hdl, f u)]⟩ := by
      simp [entry_step]
    show ((entry_step (some ⟨1, [(hdl, x)]⟩) (POp.pupdate (f u) false hdl)).2 ++
        (entry_run (entry_step (some ⟨1, [(hdl, x)]⟩)
            (POp.pupdate (f u) false hdl)).1
          (us.map (fun v => POp.pupdate (f v) false hdl) ++
            [POp.pstop false hdl])).2).getLast? = some Speed.minSpeed
    rw [hstep1, List.getLast?_append, ih (f u)]
    rfl

/-- The worker acknowledges exactly the `End` messages of a queue. -/
lemma worker_run_acks :
    ∀ (msgs : List WorkerTask) (m : DeviceAccess),
      (worker_run m msgs).2.2 = (msgs.filter isEndMsg).length := by
  intro msgs
  induction msgs with
  | nil => intro m; rfl
  | cons t ts ih =>
    intro m
    show (worker_step m t).2.2 + (worker_run (worker_step m t).1 ts).2.2 = _
    rw [ih]
    cases t <;> (simp [worker_step, isEndMsg, List.filter_cons]; try omega)

/-- A constant-scalar playback trace contains exactly one `End` per actuator. -/
lemma play_scalar_msgs_end_count (acts : List ActuatorM) (speed : Speed)
    (updates : List Speed) (hdl : Int) :
    ((play_scalar_msgs acts speed updates hdl).filter isEndMsg).length
      = acts.length := by
  rw [play_scalar_msgs, List.filter_append, List.filter_append]
  have h1 : (do_scalar_msgs acts speed false hdl).filter isEndMsg = [] := by
    rw [List.filter_eq_nil_iff]
    intro t ht
    simp only [do_scalar_msgs] at ht
    rcases List.mem_map.mp ht with ⟨b, hb, hF⟩
    rw [← hF]
    simp [isEndMsg]
  have h2 : ((updates.map (fun u => do_update_msgs acts u false hdl)).flatten).filter
      isEndMsg = [] := by
    rw [List.filter_eq_nil_iff]
    intro t ht
    rw [List.mem_flatten] at ht
    rcases ht with ⟨l, hl, htl⟩
    rcases List.mem_map.mp hl with ⟨u, hu, hlF⟩
    rw [← hlF] at htl
    simp only [do_update_msgs] at htl
    rcases List.mem_map.mp htl with ⟨b, hb, hF⟩
    rw [← hF]
    simp [isEndMsg]
  have h3 : (do_stop_msgs acts false hdl).filter isEndMsg
      = do_stop_msgs acts false hdl := by
    rw [List.filter_eq_self]
    intro t ht
    simp only [do_stop_msgs] at ht
    rcases List.mem_map.mp ht with ⟨b, hb, hF⟩
    rw [← hF]
    simp [isEndMsg]
  rw [h1, h2, h3]
  simp [do_stop_msgs]

/-- C2: for a constant-scalar playback (modelled as its full FIFO message
trace: the `Start` block, any number of live-update blocks, then the
finalization from `do_stop`) over index-distinct actuators on a fresh worker
ledger: the finalization sends one `End` per actuator, the worker sends back
exactly one acknowledgement per actuator (which `do_stop` awaits before
returning), and the last hardware write observed for every actuator the
playback touched is the minimum intensity (zero). -/
theorem C2_cancel_zeroes (acts : List ActuatorM) (speed : Speed)
    (updates : List Speed) (hdl : Int)
    (hnd : (acts.map ActuatorM.idx).Nodup) :
    (do_stop_msgs acts false hdl).length = acts.length ∧
    (worker_run DeviceAccess.empty (play_scalar_msgs acts speed updates hdl)).2.2
      = acts.length ∧
    ∀ c ∈ acts,
      (((worker_run DeviceAccess.empty
            (play_scalar_msgs acts speed updates hdl)).2.1.filter
          (fun w => w.1 = c.idx)).map (fun w => w.2)).getLast?
        = some Speed.minSpeed := by
  refine ⟨by simp [do_stop_msgs], ?_, ?_⟩
  · rw [worker_run_acks, play_scalar_msgs_end_count]
  · intro c hc
    have hno : WorkerTask.StopAll ∉ play_scalar_msgs acts speed updates hdl := by
      simp [play_scalar_msgs, do_scalar_msgs, do_update_msgs, do_stop_msgs]
    have hproj := (worker_run_proj c.idx (play_scalar_msgs acts speed updates hdl)
      DeviceAccess.empty hno).2
    rw [hproj]
    have hfm : (play_scalar_msgs acts speed updates hdl).filterMap (project c.idx)
        = POp.pstart (apply_scalar_settings speed c.limits) false hdl ::
          (updates.map (fun u =>
            POp.pupdate (apply_scalar_settings u c.limits) false hdl) ++
            [POp.pstop false hdl]) := by
      rw [play_scalar_msgs, List.filterMap_append, List.filterMap_append]
      have hb1 : (do_scalar_msgs acts speed false hdl).filterMap (project c.idx)
          = [POp.pstart (apply_scalar_settings speed c.limits) false hdl] :=
        filterMap_project_block c acts hnd hc _
          (fun b => POp.pstart (apply_scalar_settings speed b.limits) false hdl)
          (fun b => rfl)
      have hb3 : (do_stop_msgs acts false hdl).filterMap (project c.idx)
          = [POp.pstop false hdl] :=
        filterMap_project_block c acts hnd hc _
          (fun b => POp.pstop false hdl) (fun b => rfl)
      have hb2 : ((updates.map
            (fun u => do_update_msgs acts u false hdl)).flatten).filterMap
            (project c.idx)
          = updates.map (fun u =>
              POp.pupdate (apply_scalar_settings u c.limits) false hdl) := by
        rw [filterMap_flatten_eq, List.map_map]
        have hbu : ∀ u ∈ updates,
            ((fun l => l.filterMap (project c.idx)) ∘
              (fun u => do_update_msgs acts u false hdl)) u
            = (fun u =>
                [POp.pupdate (apply_scalar_settings u c.limits) false hdl]) u :=
          fun u _ => filterMap_project_block c acts hnd hc _
            (fun b => POp.pupdate (apply_scalar_settings u b.limits) false hdl)
            (fun b => rfl)
        rw [List.map_congr_left hbu]
        exact flatten_map_singleton _ updates
      rw [hb1, hb3, hb2]
      rfl
    rw [hfm]
    show ((entry_step (DeviceAccess.empty c.idx)
          (POp.pstart (apply_scalar_settings speed c.limits) false hdl)).2 ++
        (entry_run (entry_step (DeviceAccess.empty c.idx)
            (POp.pstart (apply_scalar_settings speed c.limits) false hdl)).1
          (updates.map (fun u =>
            POp.pupdate (apply_scalar_settings u c.limits) false hdl) ++
            [POp.pstop false hdl])).2).getLast? = some Speed.minSpeed
    have hstep : (entry_step (DeviceAccess.empty c.idx)
          (POp.pstart (apply_scalar_settings speed c.limits) false hdl)).1
        = some ⟨1, [(hdl, apply_scalar_settings speed c.limits)]⟩ := by
      simp [entry_step, DeviceAccess.empty]
    rw [hstep, List.getLast?_append,
      entry_run_update_stop hdl (fun u => apply_scalar_settings u c.limits)
        updates (apply_scalar_settings speed c.limits)]
    rfl

/-- Witness for C2_cancel_zeroes: two actuators, one live update, cancelled;
the worker acknowledges twice and the last write on each actuator is zero. -/
theorem C2_cancel_zeroes_witness :
    (worker_run DeviceAccess.empty
        (play_scalar_msgs [⟨⟨0, 0⟩, ActuatorLimits.None⟩,
          ⟨⟨1, 0⟩, ActuatorLimits.None⟩] ⟨40⟩ [⟨70⟩] 1)).2.2 = 2 ∧
    (((worker_run DeviceAccess.empty
          (play_scalar_msgs [⟨⟨0, 0⟩, ActuatorLimits.None⟩,
            ⟨⟨1, 0⟩, ActuatorLimits.None⟩] ⟨40⟩ [⟨70⟩] 1)).2.1.filter
        (fun w => w.1 = (⟨0, 0⟩ : ActuatorIndex))).map (fun w => w.2)).getLast?
      = some Speed.minSpeed := by
  constructor
  · exact (C2_cancel_zeroes [⟨⟨0, 0⟩, ActuatorLimits.None⟩,
      ⟨⟨1, 0⟩, ActuatorLimits.None⟩] ⟨40⟩ [⟨70⟩] 1 (by simp)).2.1
  · exact (C2_cancel_zeroes [⟨⟨0, 0⟩, ActuatorLimits.None⟩,
      ⟨⟨1, 0⟩, ActuatorLimits.None⟩] ⟨40⟩ [⟨70⟩] 1 (by simp)).2.2
      ⟨⟨0, 0⟩, ActuatorLimits.None⟩ (by simp)
